import Mathlib

/-!
# Verification of the ESP32-S3 CCTV hub core

A shallow embedding of the aggregation core of `raspberry-pi-hub/cctv_hub.py`:
the per-viewer stream relay (`gen_frames`), the motion poller (`poll_motion`),
the health checker (`health_check`), the startup state initialisation (`main`)
and the per-camera stream route (`stream`).  Python dictionaries are modelled
as association lists with update-in-place semantics, timestamps as naturals,
and every network interaction as an explicit input (probe or read outcome)
consumed by the corresponding step function.
-/

set_option autoImplicit false

namespace CctvHub

/-! ## Python dictionaries as association lists -/

/-- Lookup in a string-keyed dictionary (`d.get(k)` / `d[k]`). -/
def dictGet {α : Type} (m : List (String × α)) (k : String) : Option α :=
  (m.find? (fun p => p.1 == k)).map Prod.snd

/-- Update-or-insert (`d[k] = v`): replaces the first binding of `k` in place,
appends a new binding when `k` is absent. -/
def dictSet {α : Type} (m : List (String × α)) (k : String) (v : α) :
    List (String × α) :=
  match m with
  | [] => [(k, v)]
  | (k', v') :: rest =>
      if k' == k then (k, v) :: rest else (k', v') :: dictSet rest k v

/-- Key membership test (`k in d`). -/
def dictHas {α : Type} (m : List (String × α)) (k : String) : Bool :=
  (dictGet m k).isSome

/-- The keys of a dictionary, in storage order. -/
def dictKeys {α : Type} (m : List (String × α)) : List String :=
  m.map Prod.fst

theorem dictGet_nil {α : Type} (k : String) :
    dictGet ([] : List (String × α)) k = none := rfl

theorem dictGet_cons {α : Type} (k₀ k : String) (v₀ : α) (rest : List (String × α)) :
    dictGet ((k₀, v₀) :: rest) k = if k₀ = k then some v₀ else dictGet rest k := by
  by_cases h : k₀ = k
  · rw [if_pos h]
    subst h
    unfold dictGet
    rw [List.find?_cons_of_pos _ (by simp)]
    rfl
  · rw [if_neg h]
    unfold dictGet
    rw [List.find?_cons_of_neg _ (by simp [h])]

theorem dictGet_set_self {α : Type} (m : List (String × α)) (k : String) (v : α) :
    dictGet (dictSet m k v) k = some v := by
  induction m with
  | nil => simp [dictGet, dictSet]
  | cons p rest ih =>
      obtain ⟨k', v'⟩ := p
      by_cases h : k' = k
      · simp [dictGet_cons, dictSet, h]
      · simp only [dictSet, beq_iff_eq, h, if_false]
        rw [dictGet_cons, if_neg h]
        exact ih

theorem dictGet_set_ne {α : Type} (m : List (String × α)) (k k' : String) (v : α)
    (h : k' ≠ k) : dictGet (dictSet m k v) k' = dictGet m k' := by
  induction m with
  | nil => simp [dictGet_nil, dictSet, dictGet_cons, Ne.symm h]
  | cons p rest ih =>
      obtain ⟨k₀, v₀⟩ := p
      by_cases hk : k₀ = k
      · subst hk
        simp [dictSet, dictGet_cons, Ne.symm h]
      · simp only [dictSet, beq_iff_eq, hk, if_false]
        rw [dictGet_cons, dictGet_cons, ih]

theorem mem_dictKeys_set {α : Type} (m : List (String × α)) (k n : String) (v : α) :
    n ∈ dictKeys (dictSet m k v) ↔ n = k ∨ n ∈ dictKeys m := by
  induction m with
  | nil => simp [dictKeys, dictSet]
  | cons p rest ih =>
      obtain ⟨k₀, v₀⟩ := p
      by_cases hk : k₀ = k
      · subst hk
        simp [dictKeys, dictSet]
      · simp only [dictSet, beq_iff_eq, hk, if_false]
        simp only [dictKeys, List.map_cons, List.mem_cons] at ih ⊢
        rw [ih]
        tauto

theorem dictKeys_set_nodup {α : Type} (m : List (String × α)) (k : String) (v : α)
    (h : (dictKeys m).Nodup) : (dictKeys (dictSet m k v)).Nodup := by
  induction m with
  | nil => simp [dictKeys, dictSet]
  | cons p rest ih =>
      obtain ⟨k₀, v₀⟩ := p
      simp only [dictKeys, List.map_cons, List.nodup_cons] at h
      by_cases hk : k₀ = k
      · subst hk
        simpa [dictKeys, dictSet, List.nodup_cons] using h
      · simp only [dictSet, beq_iff_eq, hk, if_false]
        simp only [dictKeys, List.map_cons, List.nodup_cons]
        refine ⟨fun hmem => ?_, ih h.2⟩
        rcases (mem_dictKeys_set rest k k₀ v).mp hmem with h1 | h1
        · exact hk h1
        · exact h.1 h1

theorem dictHas_iff_mem_keys {α : Type} (m : List (String × α)) (k : String) :
    dictHas m k = true ↔ k ∈ dictKeys m := by
  induction m with
  | nil => simp [dictHas, dictGet, dictKeys]
  | cons p rest ih =>
      obtain ⟨k₀, v₀⟩ := p
      simp only [dictHas, dictGet_cons, dictKeys, List.map_cons, List.mem_cons] at ih ⊢
      by_cases hk : k₀ = k
      · simp [hk]
      · simp [hk, Ne.symm hk, ih]

theorem dictGet_isSome_iff_mem {α : Type} (m : List (String × α)) (k : String) :
    (dictGet m k).isSome = true ↔ k ∈ dictKeys m :=
  dictHas_iff_mem_keys m k

/-! ## The stream relay (`gen_frames`)

One relay instance per viewer.  Its loop state is whether the upstream
capture is open (`cap is None or not cap.isOpened()`) and the value of
`retry_count`; `max_retries` is fixed to 3 in the source.  Each loop
iteration consumes one read outcome: either a failed `cap.read()` or a
frame together with the outcome of the JPEG re-encode (`cv2.imencode`).
-/

/-- Outcome of one `cap.read()` in `gen_frames`: a failed read, or a frame
whose re-encode either succeeds or fails. -/
inductive ReadResult : Type where
  | fail : ReadResult
  | frame (encodeOk : Bool) : ReadResult
deriving Repr, DecidableEq

/-- Loop state of one relay instance: whether the upstream capture is open
and the current `retry_count`. -/
structure RelayState : Type where
  capOpen : Bool
  retryCount : Nat
deriving Repr, DecidableEq

/-- Observable output of one relay loop iteration: whether an upstream
connection was (re)opened, whether a multipart chunk was yielded to the
viewer, and whether the upstream connection was torn down for a
reconnect. -/
structure StepOut : Type where
  connected : Bool
  chunk : Bool
  reconnect : Bool
deriving Repr, DecidableEq

/-- One iteration of the `while True` loop of `gen_frames`: reconnect if the
capture is closed (resetting `retry_count` to 0), then consume one read
outcome.  A failed read increments `retry_count` and, when it exceeds
`max_retries = 3`, releases the capture and schedules a reconnect; a frame
whose re-encode fails is skipped silently; otherwise a chunk is yielded.
`retry_count` is not modified on a successful read, exactly as in the
source. -/
def relayStep (s : RelayState) (r : ReadResult) : RelayState × StepOut :=
  let conn := !s.capOpen
  let s := if s.capOpen then s else { capOpen := true, retryCount := 0 }
  match r with
  | .fail =>
      let rc := s.retryCount + 1
      if rc > 3 then
        ({ capOpen := false, retryCount := rc },
         { connected := conn, chunk := false, reconnect := true })
      else
        ({ s with retryCount := rc },
         { connected := conn, chunk := false, reconnect := false })
  | .frame encodeOk =>
      (s, { connected := conn, chunk := encodeOk, reconnect := false })

/-- Run a relay over a list of read outcomes, collecting the per-iteration
outputs. -/
def relayRun (s : RelayState) : List ReadResult → RelayState × List StepOut
  | [] => (s, [])
  | r :: rest =>
      let p := relayStep s r
      let q := relayRun p.1 rest
      (q.1, p.2 :: q.2)

/-- The relay loop state at the start: no upstream capture, zero retries. -/
def relayStart : RelayState := ⟨false, 0⟩

/-! ## Shared hub state

`config['cameras']` entries, the `recording` section toggles that the
poller consults, the per-camera health dictionaries, and the two global
maps `motion_state` and `camera_health`.  A `camera_health[name]` value is
a Python dict whose `uptime` and `last_motion` keys may be absent, hence
`Option`. -/

/-- One entry of `config['cameras']`. -/
structure CamCfg : Type where
  name : String
  ip : String
  enabled : Bool
deriving Repr, DecidableEq

/-- The `config['recording']` toggles consulted by `poll_motion`. -/
structure RecordingCfg : Type where
  enabled : Bool
  snapshotOnMotion : Bool
deriving Repr, DecidableEq

/-- A `camera_health[name]` dict.  `uptime` and `last_motion` are optional
because the dict created in `main` carries neither key. -/
structure HealthRecord : Type where
  online : Bool
  lastCheck : Nat
  uptime : Option Nat
  lastMotion : Option Nat
deriving Repr, DecidableEq

/-- The two global maps written by the polling loops. -/
structure HubState : Type where
  motion : List (String × Bool)
  health : List (String × HealthRecord)

/-- The names of the enabled cameras, in configuration order. -/
def enabledNames (cams : List CamCfg) : List String :=
  (cams.filter (fun c => c.enabled)).map CamCfg.name

/-- The state initialisation in `main`: for every enabled camera, a `false`
motion flag and a health dict `\x7b'online': False, 'last_check': 0\x7d`
(note: no `uptime` and no `last_motion` key). -/
def initHealthRecord : HealthRecord :=
  { online := false, lastCheck := 0, uptime := none, lastMotion := none }

/-- Run the `main` initialisation loop over the camera list, threading the
global maps. -/
def initStateAux : List CamCfg → HubState → HubState
  | [], s => s
  | cam :: rest, s =>
      initStateAux rest
        (if cam.enabled then
          { motion := dictSet s.motion cam.name false,
            health := dictSet s.health cam.name initHealthRecord }
        else s)

/-- The global maps right after `main`'s initialisation loop, starting from
empty dictionaries. -/
def initState (cams : List CamCfg) : HubState :=
  initStateAux cams { motion := [], health := [] }

/-! ## The motion poller (`poll_motion`)

Each camera's poll consumes one probe outcome.  A successful probe carries
the parsed `motion` boolean (`data.get('motion', False)`) and whether the
snapshot fetch-and-write would succeed if attempted; a failed probe stands
for a `requests.RequestException` or any other exception raised before the
flag is stored, both of whose handlers set `motion_state[name] = False`. -/

/-- Outcome of one motion probe. -/
inductive MotionProbe : Type where
  | ok (motion : Bool) (snapOk : Bool) : MotionProbe
  | fail : MotionProbe

/-- One camera's slice of a `poll_motion` cycle.  Returns the new state and
whether a snapshot file was written.  On success the stored flag is
overwritten with the observed value, `last_motion` is set whenever motion
is observed (`camera_health[name]['last_motion'] = time.time()`), and a
snapshot is attempted only when recording and snapshot-on-motion are both
enabled and the previously stored flag was `false`.  If the camera has no
`camera_health` entry, the `camera_health[name]` access raises `KeyError`,
which the outer handler turns into `motion_state[name] = False`. -/
def pollCamStep (rec : RecordingCfg) (now : Nat) (s : HubState) (name : String) :
    MotionProbe → HubState × Bool
  | .fail => ({ s with motion := dictSet s.motion name false }, false)
  | .ok isMotion snapOk =>
      let prev := (dictGet s.motion name).getD false
      let motion1 := dictSet s.motion name isMotion
      if isMotion then
        match dictGet s.health name with
        | none =>
            ({ s with motion := dictSet motion1 name false }, false)
        | some h =>
            let health1 := dictSet s.health name { h with lastMotion := some now }
            let wrote := rec.enabled && rec.snapshotOnMotion && !prev && snapOk
            ({ motion := motion1, health := health1 }, wrote)
      else
        ({ s with motion := motion1 }, false)

/-- One full `poll_motion` cycle over the camera list: disabled cameras are
skipped, each enabled camera is probed in order.  Returns the final state
together with, per probed camera, its name and whether a snapshot was
written. -/
def pollCycle (rec : RecordingCfg) (now : Nat) (probes : String → MotionProbe) :
    List CamCfg → HubState → HubState × List (String × Bool)
  | [], s => (s, [])
  | cam :: rest, s =>
      if cam.enabled then
        let p := pollCamStep rec now s cam.name (probes cam.name)
        let q := pollCycle rec now probes rest p.1
        (q.1, (cam.name, p.2) :: q.2)
      else pollCycle rec now probes rest s

/-- Successive polls of a single camera (one slice of each of several
cycles), collecting whether a snapshot was written at each poll. -/
def pollRun (rec : RecordingCfg) (name : String) (s : HubState) :
    List MotionProbe → HubState × List Bool
  | [] => (s, [])
  | p :: rest =>
      let r := pollCamStep rec 0 s name p
      let q := pollRun rec name r.1 rest
      (q.1, r.2 :: q.2)

/-! ## The health checker (`health_check`) -/

/-- Outcome of one health probe of a camera's stream endpoint: a response
with an HTTP status code, or any raised exception. -/
inductive HealthProbe : Type where
  | ok (status : Nat) : HealthProbe
  | exn : HealthProbe

/-- The update of one camera's health dict by one check.  On a response:
`online` becomes `status == 200`, `last_check` advances, and only when
online is `uptime` incremented by the check interval (reading a missing
`uptime` key as 0).  On an exception: `online` becomes `false` and
`uptime` is set to 0; `last_check` is not touched. -/
def healthCamStep (interval now : Nat) (h : HealthRecord) : HealthProbe → HealthRecord
  | .ok status =>
      let online := status == 200
      let h1 := { h with online := online, lastCheck := now }
      if online then { h1 with uptime := some (h.uptime.getD 0 + interval) } else h1
  | .exn => { h with online := false, uptime := some 0 }

/-- One camera's slice of a `health_check` cycle: initialise the health
dict if the camera has none (`if name not in camera_health`), then apply
the probe outcome. -/
def healthCamFull (interval now : Nat) (hmap : List (String × HealthRecord))
    (name : String) (p : HealthProbe) : List (String × HealthRecord) :=
  let hmap :=
    if dictHas hmap name then hmap
    else dictSet hmap name { online := false, lastCheck := 0, uptime := some 0, lastMotion := none }
  match dictGet hmap name with
  | none => hmap
  | some h => dictSet hmap name (healthCamStep interval now h p)

/-- One full `health_check` cycle over the camera list: disabled cameras
are skipped; returns the final state and the names probed. -/
def healthCycle (interval now : Nat) (probes : String → HealthProbe) :
    List CamCfg → HubState → HubState × List String
  | [], s => (s, [])
  | cam :: rest, s =>
      if cam.enabled then
        let h1 := healthCamFull interval now s.health cam.name (probes cam.name)
        let q := healthCycle interval now probes rest { s with health := h1 }
        (q.1, cam.name :: q.2)
      else healthCycle interval now probes rest s

/-! ## Whole-process runs -/

/-- One scheduling step of the hub: either a `poll_motion` cycle or a
`health_check` cycle, each with its observed probe outcomes. -/
inductive HubStep : Type where
  | pollC (now : Nat) (rec : RecordingCfg) (probes : String → MotionProbe) : HubStep
  | healthC (interval now : Nat) (probes : String → HealthProbe) : HubStep

/-- Apply one scheduling step; also return the list of camera names that
received probe traffic during the step. -/
def hubStepRun (cams : List CamCfg) (s : HubState) : HubStep → HubState × List String
  | .pollC now rec probes =>
      let r := pollCycle rec now probes cams s
      (r.1, r.2.map Prod.fst)
  | .healthC interval now probes => healthCycle interval now probes cams s

/-- Run a list of scheduling steps from a given state, accumulating probe
traffic. -/
def hubRunAux (cams : List CamCfg) (s : HubState) : List HubStep → HubState × List String
  | [] => (s, [])
  | st :: rest =>
      let r := hubStepRun cams s st
      let q := hubRunAux cams r.1 rest
      (q.1, r.2 ++ q.2)

/-- Run the process: `main`'s initialisation followed by any interleaving
of poller and health-checker cycles. -/
def hubRun (cams : List CamCfg) (steps : List HubStep) : HubState × List String :=
  hubRunAux cams (initState cams) steps

/-! ## The stream route (`/stream/<name>`) -/

/-- Response of the per-camera stream route: a 404 error or a relayed
stream from the matched camera's address. -/
inductive StreamResponse : Type where
  | notFound : StreamResponse
  | relay (ip : String) : StreamResponse
deriving Repr, DecidableEq

/-- The `stream` route: find the first configured camera with the requested
name (the `enabled` flag is not part of the predicate); 404 when none
matches, otherwise relay from that camera's address. -/
def streamRoute (cams : List CamCfg) (name : String) : StreamResponse :=
  match cams.find? (fun c => c.name == name) with
  | none => .notFound
  | some c => .relay c.ip

/-! ## Spec-side counting helpers (used to compare runs against the
spec's wording) -/

/-- Per-poll transition flags as the spec words them: position `i` is
`true` exactly when poll `i` observes `true` after a stored `false`. -/
def transitionFlags (prev : Bool) : List Bool → List Bool
  | [] => []
  | b :: rest => (b && !prev) :: transitionFlags b rest

/-! ## The startup state and the keys invariant -/

theorem enabledNames_cons (c : CamCfg) (rest : List CamCfg) :
    enabledNames (c :: rest)
      = if c.enabled then c.name :: enabledNames rest else enabledNames rest := by
  by_cases hc : c.enabled = true <;> simp [enabledNames, List.filter_cons, hc]

theorem initStateAux_motion_get (cams : List CamCfg) (s : HubState) (name : String) :
    dictGet (initStateAux cams s).motion name
      = if name ∈ enabledNames cams then some false else dictGet s.motion name := by
  induction cams generalizing s with
  | nil => simp [initStateAux, enabledNames]
  | cons c rest ih =>
      rw [enabledNames_cons]
      by_cases hc : c.enabled = true
      · simp only [initStateAux, hc, if_true]
        rw [ih]
        by_cases hmem : name ∈ enabledNames rest
        · simp [hmem]
        · by_cases heq : c.name = name
          · simp [hmem, heq, dictGet_set_self]
          · have hne : name ≠ c.name := fun hh => heq hh.symm
            simp [hmem, hne, dictGet_set_ne _ _ _ _ hne]
      · simp only [initStateAux, hc, if_false]
        rw [ih]
        simp

theorem initStateAux_health_get (cams : List CamCfg) (s : HubState) (name : String) :
    dictGet (initStateAux cams s).health name
      = if name ∈ enabledNames cams then some initHealthRecord
        else dictGet s.health name := by
  induction cams generalizing s with
  | nil => simp [initStateAux, enabledNames]
  | cons c rest ih =>
      rw [enabledNames_cons]
      by_cases hc : c.enabled = true
      · simp only [initStateAux, hc, if_true]
        rw [ih]
        by_cases hmem : name ∈ enabledNames rest
        · simp [hmem]
        · by_cases heq : c.name = name
          · simp [hmem, heq, dictGet_set_self]
          · have hne : name ≠ c.name := fun hh => heq hh.symm
            simp [hmem, hne, dictGet_set_ne _ _ _ _ hne]
      · simp only [initStateAux, hc, if_false]
        rw [ih]
        simp

theorem initStateAux_nodup (cams : List CamCfg) (s : HubState)
    (hm : (dictKeys s.motion).Nodup) (hh : (dictKeys s.health).Nodup) :
    (dictKeys (initStateAux cams s).motion).Nodup
      ∧ (dictKeys (initStateAux cams s).health).Nodup := by
  induction cams generalizing s with
  | nil => exact ⟨hm, hh⟩
  | cons c rest ih =>
      by_cases hc : c.enabled = true
      · simp only [initStateAux, hc, if_true]
        exact ih _ (dictKeys_set_nodup _ _ _ hm) (dictKeys_set_nodup _ _ _ hh)
      · simp only [initStateAux, hc, if_false]
        exact ih _ hm hh

/-- The keys invariant: both global maps have duplicate-free key lists
whose members are exactly the given name set. -/
def stateKeysOk (E : List String) (s : HubState) : Prop :=
  (dictKeys s.motion).Nodup ∧ (dictKeys s.health).Nodup
    ∧ (∀ n, n ∈ dictKeys s.motion ↔ n ∈ E)
    ∧ (∀ n, n ∈ dictKeys s.health ↔ n ∈ E)

theorem initState_keysOk (cams : List CamCfg) :
    stateKeysOk (enabledNames cams) (initState cams) := by
  obtain ⟨hm, hh⟩ := initStateAux_nodup cams ⟨[], []⟩ (by simp [dictKeys])
    (by simp [dictKeys])
  refine ⟨hm, hh, fun n => ?_, fun n => ?_⟩
  · rw [← dictGet_isSome_iff_mem]
    unfold initState
    rw [initStateAux_motion_get]
    by_cases hmem : n ∈ enabledNames cams <;> simp [hmem, dictGet_nil]
  · rw [← dictGet_isSome_iff_mem]
    unfold initState
    rw [initStateAux_health_get]
    by_cases hmem : n ∈ enabledNames cams <;> simp [hmem, dictGet_nil]

theorem keysOk_set_motion (E : List String) (s : HubState) (name : String)
    (v : Bool) (hname : name ∈ E) (h : stateKeysOk E s) :
    stateKeysOk E ⟨dictSet s.motion name v, s.health⟩ := by
  obtain ⟨hm, hh, hmm, hhm⟩ := h
  refine ⟨dictKeys_set_nodup _ _ _ hm, hh, fun n => ?_, hhm⟩
  rw [mem_dictKeys_set]
  constructor
  · rintro (rfl | hn)
    · exact hname
    · exact (hmm n).mp hn
  · intro hn
    exact Or.inr ((hmm n).mpr hn)

theorem keysOk_set_health (E : List String) (s : HubState) (name : String)
    (v : HealthRecord) (hname : name ∈ E) (h : stateKeysOk E s) :
    stateKeysOk E ⟨s.motion, dictSet s.health name v⟩ := by
  obtain ⟨hm, hh, hmm, hhm⟩ := h
  refine ⟨hm, dictKeys_set_nodup _ _ _ hh, hmm, fun n => ?_⟩
  rw [mem_dictKeys_set]
  constructor
  · rintro (rfl | hn)
    · exact hname
    · exact (hhm n).mp hn
  · intro hn
    exact Or.inr ((hhm n).mpr hn)

theorem pollCamStep_keysOk (E : List String) (rec : RecordingCfg) (now : Nat)
    (s : HubState) (name : String) (p : MotionProbe) (hname : name ∈ E)
    (h : stateKeysOk E s) : stateKeysOk E (pollCamStep rec now s name p).1 := by
  cases p with
  | fail => exact keysOk_set_motion E s name false hname h
  | ok b snapOk =>
      unfold pollCamStep
      cases b
      · exact keysOk_set_motion E s name false hname h
      · cases hget : dictGet s.health name with
        | none =>
            simp only [hget]
            exact keysOk_set_motion E ⟨dictSet s.motion name true, s.health⟩
              name false hname (keysOk_set_motion E s name true hname h)
        | some hr =>
            simp only [hget]
            exact keysOk_set_health E ⟨dictSet s.motion name true, s.health⟩
              name _ hname (keysOk_set_motion E s name true hname h)

theorem pollCycle_keysOk (E : List String) (rec : RecordingCfg) (now : Nat)
    (probes : String → MotionProbe) (cams : List CamCfg) (s : HubState)
    (hsub : ∀ cam ∈ cams, cam.enabled = true → cam.name ∈ E)
    (h : stateKeysOk E s) : stateKeysOk E (pollCycle rec now probes cams s).1 := by
  induction cams generalizing s with
  | nil => exact h
  | cons c rest ih =>
      have hsub' : ∀ cam ∈ rest, cam.enabled = true → cam.name ∈ E :=
        fun cam hmem => hsub cam (List.mem_cons_of_mem _ hmem)
      by_cases hc : c.enabled = true
      · simp only [pollCycle, hc, if_true]
        exact ih _ hsub'
          (pollCamStep_keysOk E rec now s c.name (probes c.name)
            (hsub c (List.mem_cons_self c rest) hc) h)
      · simp only [pollCycle, hc, if_false]
        exact ih _ hsub' h

theorem healthCamFull_keysOk (E : List String) (interval now : Nat)
    (s : HubState) (name : String) (p : HealthProbe) (hname : name ∈ E)
    (h : stateKeysOk E s) :
    stateKeysOk E ⟨s.motion, healthCamFull interval now s.health name p⟩ := by
  have hmem : name ∈ dictKeys s.health := (h.2.2.2 name).mpr hname
  have hhas : dictHas s.health name = true := (dictHas_iff_mem_keys _ _).mpr hmem
  have hsome : (dictGet s.health name).isSome = true :=
    (dictGet_isSome_iff_mem _ _).mpr hmem
  obtain ⟨hr, hget⟩ := Option.isSome_iff_exists.mp hsome
  unfold healthCamFull
  rw [hhas]
  simp only [if_true, hget]
  exact keysOk_set_health E s name _ hname h

theorem healthCycle_keysOk (E : List String) (interval now : Nat)
    (probes : String → HealthProbe) (cams : List CamCfg) (s : HubState)
    (hsub : ∀ cam ∈ cams, cam.enabled = true → cam.name ∈ E)
    (h : stateKeysOk E s) :
    stateKeysOk E (healthCycle interval now probes cams s).1 := by
  induction cams generalizing s with
  | nil => exact h
  | cons c rest ih =>
      have hsub' : ∀ cam ∈ rest, cam.enabled = true → cam.name ∈ E :=
        fun cam hmem => hsub cam (List.mem_cons_of_mem _ hmem)
      by_cases hc : c.enabled = true
      · simp only [healthCycle, hc, if_true]
        exact ih _ hsub'
          (healthCamFull_keysOk E interval now s c.name (probes c.name)
            (hsub c (List.mem_cons_self c rest) hc) h)
      · simp only [healthCycle, hc, if_false]
        exact ih _ hsub' h

theorem healthCycle_probed_names (interval now : Nat)
    (probes : String → HealthProbe) (cams : List CamCfg) (s : HubState) :
    (healthCycle interval now probes cams s).2 = enabledNames cams := by
  induction cams generalizing s with
  | nil => rfl
  | cons c rest ih =>
      rw [enabledNames_cons]
      by_cases hc : c.enabled = true
      · simp only [healthCycle, hc, if_true]
        rw [ih]
      · simp only [healthCycle, hc, if_false]
        simpa using ih s

/-! ## Step lemmas for the motion poller -/

theorem pollCamStep_ok_eq (rec : RecordingCfg) (now : Nat) (s : HubState)
    (name : String) (b snapOk prev : Bool) (h : HealthRecord)
    (hm : dictGet s.motion name = some prev)
    (hh : dictGet s.health name = some h) :
    pollCamStep rec now s name (.ok b snapOk)
      = (⟨dictSet s.motion name b,
          if b then dictSet s.health name { h with lastMotion := some now }
          else s.health⟩,
         b && rec.enabled && rec.snapshotOnMotion && !prev && snapOk) := by
  cases b <;> simp [pollCamStep, hm, hh]

theorem pollCamStep_motion_other (rec : RecordingCfg) (now : Nat) (s : HubState)
    (name' : String) (p : MotionProbe) (name : String) (h : name ≠ name') :
    dictGet (pollCamStep rec now s name' p).1.motion name = dictGet s.motion name := by
  cases p with
  | fail => simp [pollCamStep, dictGet_set_ne _ _ _ _ h]
  | ok b snapOk =>
      unfold pollCamStep
      cases b
      · simp [dictGet_set_ne _ _ _ _ h]
      · cases hget : dictGet s.health name' <;>
          simp [hget, dictGet_set_ne _ _ _ _ h]

theorem pollCycle_motion_other (rec : RecordingCfg) (now : Nat)
    (probes : String → MotionProbe) (cams : List CamCfg) (s : HubState)
    (name : String) (h : ∀ cam ∈ cams, name ≠ cam.name) :
    dictGet (pollCycle rec now probes cams s).1.motion name = dictGet s.motion name := by
  induction cams generalizing s with
  | nil => rfl
  | cons c rest ih =>
      have hrest : ∀ cam ∈ rest, name ≠ cam.name :=
        fun cam hc => h cam (List.mem_cons_of_mem _ hc)
      by_cases hc : c.enabled = true
      · simp only [pollCycle, hc, if_true]
        rw [ih _ hrest,
          pollCamStep_motion_other _ _ _ _ _ _ (h c (List.mem_cons_self c rest))]
      · simp only [pollCycle, hc, if_false]
        exact ih _ hrest

theorem pollCycle_probed_names (rec : RecordingCfg) (now : Nat)
    (probes : String → MotionProbe) (cams : List CamCfg) (s : HubState) :
    (pollCycle rec now probes cams s).2.map Prod.fst = enabledNames cams := by
  induction cams generalizing s with
  | nil => rfl
  | cons c rest ih =>
      by_cases hc : c.enabled = true
      · simp [pollCycle, hc, enabledNames, List.filter_cons, ih]
      · simp [pollCycle, hc, enabledNames, List.filter_cons, ih]

/-! ## The keys invariant over whole-process runs -/

theorem hubStepRun_keysOk (cams : List CamCfg) (s : HubState) (st : HubStep)
    (h : stateKeysOk (enabledNames cams) s) :
    stateKeysOk (enabledNames cams) (hubStepRun cams s st).1
      ∧ (hubStepRun cams s st).2 = enabledNames cams := by
  have hsub : ∀ cam ∈ cams, cam.enabled = true → cam.name ∈ enabledNames cams := by
    intro cam hmem hen
    exact List.mem_map_of_mem CamCfg.name (List.mem_filter_of_mem hmem (by simp [hen]))
  cases st with
  | pollC now rec probes =>
      exact ⟨pollCycle_keysOk _ rec now probes cams s hsub h,
        pollCycle_probed_names rec now probes cams s⟩
  | healthC interval now probes =>
      exact ⟨healthCycle_keysOk _ interval now probes cams s hsub h,
        healthCycle_probed_names interval now probes cams s⟩

theorem hubRunAux_keysOk (cams : List CamCfg) (s : HubState) (steps : List HubStep)
    (h : stateKeysOk (enabledNames cams) s) :
    stateKeysOk (enabledNames cams) (hubRunAux cams s steps).1
      ∧ ∀ n ∈ (hubRunAux cams s steps).2, n ∈ enabledNames cams := by
  induction steps generalizing s with
  | nil => exact ⟨h, by simp [hubRunAux]⟩
  | cons st rest ih =>
      obtain ⟨h1, h2⟩ := hubStepRun_keysOk cams s st h
      obtain ⟨h3, h4⟩ := ih _ h1
      refine ⟨h3, ?_⟩
      intro n hn
      simp only [hubRunAux, List.mem_append] at hn
      rcases hn with hn | hn
      · exact h2 ▸ hn
      · exact h4 n hn

/-- C7.  At every state reachable by any interleaving of poller and
health-checker cycles after `main`'s initialisation, every enabled camera
has exactly one `motion_state` entry and exactly one `camera_health`
entry; a name outside the enabled list appears in neither map and never
receives probe traffic from either loop. -/
theorem enabled_cameras_have_unique_state_entries
    (cams : List CamCfg) (steps : List HubStep) :
    (∀ cam ∈ cams, cam.enabled = true →
        (dictKeys (hubRun cams steps).1.motion).count cam.name = 1
          ∧ (dictKeys (hubRun cams steps).1.health).count cam.name = 1)
      ∧ ∀ n, n ∉ enabledNames cams →
          n ∉ dictKeys (hubRun cams steps).1.motion
            ∧ n ∉ dictKeys (hubRun cams steps).1.health
            ∧ n ∉ (hubRun cams steps).2 := by
  obtain ⟨⟨hm, hh, hmm, hhm⟩, hprobe⟩ :=
    hubRunAux_keysOk cams (initState cams) steps (initState_keysOk cams)
  constructor
  · intro cam hmem hen
    have hname : cam.name ∈ enabledNames cams :=
      List.mem_map_of_mem CamCfg.name (List.mem_filter_of_mem hmem (by simp [hen]))
    exact ⟨List.count_eq_one_of_mem hm ((hmm cam.name).mpr hname),
      List.count_eq_one_of_mem hh ((hhm cam.name).mpr hname)⟩
  · intro n hn
    exact ⟨fun hc => hn ((hmm n).mp hc), fun hc => hn ((hhm n).mp hc),
      fun hc => hn (hprobe n hc)⟩

/-- C7 (witness): with one enabled and one disabled camera and one cycle
of each loop, the enabled camera has exactly one entry in each map and the
disabled camera appears nowhere and is never probed. -/
theorem enabled_cameras_have_unique_state_entries_witness :
    (dictKeys (hubRun [⟨"Cam1", "10.0.0.1", true⟩, ⟨"Cam2", "10.0.0.2", false⟩]
        [HubStep.pollC 0 ⟨true, true⟩ (fun _ => .ok true true),
         HubStep.healthC 10 1 (fun _ => .ok 200)]).1.motion).count "Cam1" = 1
      ∧ "Cam2" ∉ dictKeys (hubRun [⟨"Cam1", "10.0.0.1", true⟩, ⟨"Cam2", "10.0.0.2", false⟩]
          [HubStep.pollC 0 ⟨true, true⟩ (fun _ => .ok true true),
           HubStep.healthC 10 1 (fun _ => .ok 200)]).1.health :=
  ⟨((enabled_cameras_have_unique_state_entries
      [⟨"Cam1", "10.0.0.1", true⟩, ⟨"Cam2", "10.0.0.2", false⟩]
      [HubStep.pollC 0 ⟨true, true⟩ (fun _ => .ok true true),
       HubStep.healthC 10 1 (fun _ => .ok 200)]).1
      ⟨"Cam1", "10.0.0.1", true⟩ (by simp) rfl).1,
   (((enabled_cameras_have_unique_state_entries
      [⟨"Cam1", "10.0.0.1", true⟩, ⟨"Cam2", "10.0.0.2", false⟩]
      [HubStep.pollC 0 ⟨true, true⟩ (fun _ => .ok true true),
       HubStep.healthC 10 1 (fun _ => .ok 200)]).2
      "Cam2" (by decide)).2).1⟩

/-! ## Claims about the motion poller -/

/-- C5.  In any `poll_motion` cycle, a camera whose probe fails ends the
cycle with its stored motion flag equal to `false` whatever its prior
value, and the cycle still probes every enabled camera of the
configuration, in order — one camera's failure blocks no other. -/
theorem poll_failed_probe_forces_false (rec : RecordingCfg) (now : Nat)
    (probes : String → MotionProbe) (cams : List CamCfg) (s : HubState)
    (cam : CamCfg) (hnd : (cams.map CamCfg.name).Nodup) (hc : cam ∈ cams)
    (he : cam.enabled = true) (hp : probes cam.name = .fail) :
    dictGet (pollCycle rec now probes cams s).1.motion cam.name = some false
      ∧ (pollCycle rec now probes cams s).2.map Prod.fst = enabledNames cams := by
  refine ⟨?_, pollCycle_probed_names rec now probes cams s⟩
  induction cams generalizing s with
  | nil => cases hc
  | cons c rest ih =>
      simp only [List.map_cons, List.nodup_cons] at hnd
      rcases List.mem_cons.mp hc with rfl | hmem
      · simp only [pollCycle, he, if_true]
        have hother : ∀ c' ∈ rest, cam.name ≠ c'.name := by
          intro c' hc' heq
          exact hnd.1 (heq ▸ List.mem_map_of_mem CamCfg.name hc')
        rw [pollCycle_motion_other _ _ _ _ _ _ hother, hp]
        simp [pollCamStep, dictGet_set_self]
      · by_cases hcen : c.enabled = true
        · simp only [pollCycle, hcen, if_true]
          exact ih _ hnd.2 hmem
        · simp only [pollCycle, hcen, if_false]
          exact ih _ hnd.2 hmem

/-- C5 (witness). -/
theorem poll_failed_probe_forces_false_witness :
    dictGet (pollCycle ⟨true, true⟩ 0
        (fun n => if n = "Cam1" then .fail else .ok true true)
        [⟨"Cam1", "10.0.0.1", true⟩, ⟨"Cam2", "10.0.0.2", true⟩]
        (initState [⟨"Cam1", "10.0.0.1", true⟩, ⟨"Cam2", "10.0.0.2", true⟩])).1.motion
        "Cam1" = some false
      ∧ (pollCycle ⟨true, true⟩ 0
          (fun n => if n = "Cam1" then .fail else .ok true true)
          [⟨"Cam1", "10.0.0.1", true⟩, ⟨"Cam2", "10.0.0.2", true⟩]
          (initState [⟨"Cam1", "10.0.0.1", true⟩, ⟨"Cam2", "10.0.0.2", true⟩])).2.map
          Prod.fst
        = enabledNames [⟨"Cam1", "10.0.0.1", true⟩, ⟨"Cam2", "10.0.0.2", true⟩] :=
  poll_failed_probe_forces_false ⟨true, true⟩ 0 _ _ _ ⟨"Cam1", "10.0.0.1", true⟩
    (by simp) (by simp) rfl rfl

/-- C6.  Whenever a poll observes motion `true` on a camera that has a
health record, the camera's `last_motion` timestamp is set to the current
time — also on repeated, non-edge `true` readings, since the update does
not consult the previous flag; a poll observing `false` leaves the whole
health map, hence `last_motion`, untouched. -/
theorem poll_true_updates_last_motion (rec : RecordingCfg) (now : Nat)
    (s : HubState) (name : String) (snapOk : Bool) (h : HealthRecord)
    (hh : dictGet s.health name = some h) :
    dictGet (pollCamStep rec now s name (.ok true snapOk)).1.health name
        = some { h with lastMotion := some now }
      ∧ ∀ snapOk', (pollCamStep rec now s name (.ok false snapOk')).1.health
        = s.health := by
  constructor
  · simp [pollCamStep, hh, dictGet_set_self]
  · intro snapOk'
    simp [pollCamStep]

/-- C6 (witness): a camera already flagged `true` (a sustained reading)
still gets `last_motion` advanced to the poll time. -/
theorem poll_true_updates_last_motion_witness :
    dictGet (pollCamStep ⟨true, true⟩ 42
        ⟨[("Cam1", true)], [("Cam1", ⟨true, 7, some 30, some 9⟩)]⟩
        "Cam1" (.ok true true)).1.health "Cam1"
      = some ⟨true, 7, some 30, some 42⟩ :=
  (poll_true_updates_last_motion ⟨true, true⟩ 42
    ⟨[("Cam1", true)], [("Cam1", ⟨true, 7, some 30, some 9⟩)]⟩
    "Cam1" true ⟨true, 7, some 30, some 9⟩ rfl).1

/-- C1 (counterexample).  The claim conditions the snapshot only on
snapshot-on-motion being enabled, but `poll_motion` also requires
`config['recording']['enabled']`: with recording disabled and
snapshot-on-motion enabled, a false→true transition of the stored flag
produces no snapshot write. -/
theorem poll_no_snapshot_when_recording_disabled :
    (pollRun ⟨false, true⟩ "Cam1" (initState [⟨"Cam1", "10.0.0.1", true⟩])
        [.ok true true]).2 = [false]
      ∧ transitionFlags false [true] = [true] := by
  constructor <;> rfl

/-- C1 (amended).  With recording and snapshot-on-motion both enabled and
all probes and snapshot fetches succeeding, a camera holding a motion flag
and a health record gets a snapshot written at exactly the polls whose
observation is `true` while the stored flag was `false` — never on
sustained `true` readings; in particular the sequence
`[false, true, true, false, true]` yields writes exactly at polls 2
and 5. -/
theorem poll_snapshot_iff_transition (name : String) (ms : List Bool)
    (s : HubState) (prev : Bool) (hm : dictGet s.motion name = some prev)
    (hh : (dictGet s.health name).isSome = true) :
    (pollRun ⟨true, true⟩ name s (ms.map (fun b => MotionProbe.ok b true))).2
        = transitionFlags prev ms
      ∧ (pollRun ⟨true, true⟩ "Cam1" (initState [⟨"Cam1", "10.0.0.1", true⟩])
          ([false, true, true, false, true].map (fun b => MotionProbe.ok b true))).2
        = [false, true, false, false, true] := by
  refine ⟨?_, rfl⟩
  induction ms generalizing s prev with
  | nil => rfl
  | cons b rest ih =>
      obtain ⟨h, hrec⟩ := Option.isSome_iff_exists.mp hh
      have hstep := pollCamStep_ok_eq ⟨true, true⟩ 0 s name b true prev h hm hrec
      simp only [List.map_cons, pollRun, hstep, transitionFlags]
      cases b
      · simp only [List.cons.injEq]
        refine ⟨by simp, ?_⟩
        exact ih _ false (by simp [dictGet_set_self]) (by simp [hrec])
      · simp only [List.cons.injEq]
        refine ⟨by simp, ?_⟩
        exact ih _ true (by simp [dictGet_set_self])
          (by simp [dictGet_set_self])

/-- C1 (witness). -/
theorem poll_snapshot_iff_transition_witness :
    (pollRun ⟨true, true⟩ "Cam1" (initState [⟨"Cam1", "10.0.0.1", true⟩])
        ([false, true, true, false, true].map (fun b => MotionProbe.ok b true))).2
      = transitionFlags false [false, true, true, false, true] :=
  (poll_snapshot_iff_transition "Cam1" [false, true, true, false, true]
    (initState [⟨"Cam1", "10.0.0.1", true⟩]) false rfl rfl).1

/-! ## Claims about the health checker -/

/-- Per-camera uptime trace of successive health checks of one camera. -/
def healthRunUptimes (interval : Nat) (h : HealthRecord) :
    List HealthProbe → List (Option Nat)
  | [] => []
  | p :: rest =>
      let h1 := healthCamStep interval 0 h p
      h1.uptime :: healthRunUptimes interval h1 rest

/-- C2 (counterexample).  The claim says any non-success HTTP status
resets `uptime` to 0.  On the code only the exception handler resets it: a
check answering status 500 after an online check marks the camera offline
but leaves `uptime` at 10. -/
theorem health_bad_status_keeps_uptime :
    (healthCamStep 10 1 (healthCamStep 10 0 initHealthRecord (.ok 200))
        (.ok 500)).online = false
      ∧ (healthCamStep 10 1 (healthCamStep 10 0 initHealthRecord (.ok 200))
          (.ok 500)).uptime = some 10
      ∧ ¬ (healthCamStep 10 1 (healthCamStep 10 0 initHealthRecord (.ok 200))
          (.ok 500)).uptime = some 0 := by
  refine ⟨rfl, rfl, by decide⟩

/-- C2 (amended).  A check raising an exception sets `online=false` and
resets `uptime` to 0; a response with a non-200 status sets `online=false`
but leaves `uptime` unchanged; a 200 response sets `online=true` and adds
the check interval to `uptime` (a missing `uptime` key reads as 0).  With
offline realised as an exception, the probe sequence
`[online, online, offline, online]` at interval 10 traces uptimes
`[10, 20, 0, 10]`. -/
theorem health_uptime_update_rule (h : HealthRecord) (interval now s : Nat)
    (hs : s ≠ 200) :
    (healthCamStep interval now h .exn).online = false
      ∧ (healthCamStep interval now h .exn).uptime = some 0
      ∧ (healthCamStep interval now h (.ok s)).online = false
      ∧ (healthCamStep interval now h (.ok s)).uptime = h.uptime
      ∧ (healthCamStep interval now h (.ok 200)).online = true
      ∧ (healthCamStep interval now h (.ok 200)).uptime
          = some (h.uptime.getD 0 + interval)
      ∧ healthRunUptimes 10 initHealthRecord [.ok 200, .ok 200, .exn, .ok 200]
          = [some 10, some 20, some 0, some 10] := by
  refine ⟨rfl, rfl, ?_, ?_, ?_, ?_, rfl⟩
  · simp [healthCamStep, hs]
  · simp [healthCamStep, hs]
  · simp [healthCamStep]
  · simp [healthCamStep]

/-- C2 (witness). -/
theorem health_uptime_update_rule_witness :
    (healthCamStep 10 3 ⟨true, 2, some 30, none⟩ (.ok 404)).uptime = some 30
      ∧ (healthCamStep 10 3 ⟨true, 2, some 30, none⟩ .exn).uptime = some 0 :=
  ⟨((health_uptime_update_rule ⟨true, 2, some 30, none⟩ 10 3 404 (by decide)).2.2.2).1,
   (health_uptime_update_rule ⟨true, 2, some 30, none⟩ 10 3 404 (by decide)).2.1⟩

/-- C8 (counterexample).  The claim says the startup record has
`uptime = 0`; the dict `main` creates is `\x7b'online': False,
'last_check': 0\x7d` — it has no `uptime` key at all, so its uptime is
absent rather than 0. -/
theorem startup_health_record_lacks_uptime :
    dictGet (initState [⟨"Cam1", "10.0.0.1", true⟩]).health "Cam1"
        = some initHealthRecord
      ∧ initHealthRecord.online = false
      ∧ ¬ initHealthRecord.uptime = some 0 := by
  refine ⟨rfl, rfl, by decide⟩

/-- C8 (amended).  The HealthRecord created at startup for an enabled
camera has `online = false`, `last_check = 0` and no `uptime` key; the
missing key is read as 0, so the first online check yields
`uptime = interval`. -/
theorem startup_health_record_shape (interval now : Nat) :
    initHealthRecord.online = false
      ∧ initHealthRecord.lastCheck = 0
      ∧ initHealthRecord.uptime = none
      ∧ (healthCamStep interval now initHealthRecord (.ok 200)).uptime
          = some interval
      ∧ dictGet (initState [⟨"Cam1", "10.0.0.1", true⟩]).health "Cam1"
          = some initHealthRecord := by
  refine ⟨rfl, rfl, rfl, ?_, rfl⟩
  simp [healthCamStep, initHealthRecord]

/-! ## Claims about the stream relay -/

/-- C3 (counterexample).  The claim says the relay tears down and
reconnects on the 3rd consecutive failed read.  On the code, a fresh relay
fed 3 consecutive failed reads emits no reconnect at all (the guard is
`retry_count > max_retries` with `max_retries = 3`), and its capture is
still open with `retry_count = 3`. -/
theorem relay_no_reconnect_on_third_failure :
    ((relayRun relayStart [.fail, .fail, .fail]).2.map StepOut.reconnect)
        = [false, false, false]
      ∧ (relayRun relayStart [.fail, .fail, .fail]).1 = ⟨true, 3⟩ := by
  constructor <;> rfl

/-- C3 (amended).  On a failed frame read the relay increments
`retry_count` and tears down the upstream connection only when the count
exceeds 3: from a fresh connection, failures 1–3 retry in place and the
teardown-and-reconnect happens on the 4th consecutive failure, whatever
reads follow. -/
theorem relay_reconnect_on_fourth_failure (rest : List ReadResult) :
    (((relayRun relayStart
          (.fail :: .fail :: .fail :: .fail :: rest)).2.take 4).map StepOut.reconnect)
        = [false, false, false, true]
      ∧ (relayRun relayStart [.fail, .fail, .fail, .fail]).1.capOpen = false := by
  constructor
  · simp [relayRun, relayStart, relayStep]
  · rfl

/-- C4 (counterexample).  The claim says every successful frame read
resets `retry_count` to 0.  On the code the counter is reset only when
(re)connecting: after one failure followed by a successful read the
counter is 1, and after 3 failures, a success and a single further
failure the relay reconnects — no fresh run of 3 failures is needed. -/
theorem relay_success_does_not_reset_retry_counter :
    (relayRun relayStart [.fail, .frame true]).1.retryCount = 1
      ∧ ¬ (relayRun relayStart [.fail, .frame true]).1.retryCount = 0
      ∧ ((relayRun relayStart
            [.fail, .fail, .fail, .frame true, .fail]).2.map StepOut.reconnect)
          = [false, false, false, false, true] := by
  refine ⟨rfl, by decide, rfl⟩

/-- C4 (amended).  A frame read while streaming leaves the relay state —
in particular `retry_count` — unchanged; the counter is reset to 0 only
when a (re)connection is made, as on a frame read from a closed capture. -/
theorem relay_retry_reset_only_on_connect (s : RelayState) (e : Bool)
    (hs : s.capOpen = true) :
    relayStep s (.frame e) = (s, ⟨false, e, false⟩)
      ∧ ∀ n e', (relayStep ⟨false, n⟩ (.frame e')).1.retryCount = 0 := by
  constructor
  · simp [relayStep, hs]
  · intro n e'
    rfl

/-- C4 (witness). -/
theorem relay_retry_reset_only_on_connect_witness :
    relayStep ⟨true, 2⟩ (.frame true) = (⟨true, 2⟩, ⟨false, true, false⟩) :=
  (relay_retry_reset_only_on_connect ⟨true, 2⟩ true rfl).1

/-- C9.  A failed JPEG re-encode while streaming yields no chunk, surfaces
no event to the viewer, leaves the relay state untouched and the loop
simply continues with the remaining reads. -/
theorem relay_encode_failure_skips_frame (s : RelayState) (rest : List ReadResult)
    (hs : s.capOpen = true) :
    relayStep s (.frame false) = (s, ⟨false, false, false⟩)
      ∧ relayRun s (.frame false :: rest)
          = ((relayRun s rest).1, ⟨false, false, false⟩ :: (relayRun s rest).2) := by
  have hstep : relayStep s (.frame false) = (s, ⟨false, false, false⟩) := by
    simp [relayStep, hs]
  refine ⟨hstep, ?_⟩
  simp [relayRun, hstep]

/-- C9 (witness). -/
theorem relay_encode_failure_skips_frame_witness :
    relayStep ⟨true, 1⟩ (.frame false) = (⟨true, 1⟩, ⟨false, false, false⟩)
      ∧ relayRun ⟨true, 1⟩ [.frame false, .frame true]
          = ((relayRun ⟨true, 1⟩ [.frame true]).1,
             ⟨false, false, false⟩ :: (relayRun ⟨true, 1⟩ [.frame true]).2) :=
  relay_encode_failure_skips_frame ⟨true, 1⟩ [.frame true] rfl

/-! ## Claim about the stream route -/

/-- C10.  The `/stream/<name>` route answers 404 exactly when no
configured camera bears the requested name, and the `enabled` flag is
never consulted: rewriting every camera's `enabled` flag in any way leaves
the route's response unchanged, so a disabled camera is still relayed. -/
theorem stream_route_404_iff_unknown_and_ignores_enabled
    (cams : List CamCfg) (name : String) :
    (streamRoute cams name = .notFound ↔ ∀ c ∈ cams, c.name ≠ name)
      ∧ ∀ f : CamCfg → Bool,
          streamRoute (cams.map (fun c => { c with enabled := f c })) name
            = streamRoute cams name := by
  constructor
  · have hbase : streamRoute cams name = .notFound
        ↔ cams.find? (fun c => c.name == name) = none := by
      unfold streamRoute
      cases cams.find? (fun c => c.name == name) <;> simp
    rw [hbase, List.find?_eq_none]
    simp
  · intro f
    induction cams with
    | nil => rfl
    | cons c rest ih =>
        unfold streamRoute at ih ⊢
        rw [List.map_cons]
        by_cases h : c.name = name
        · rw [List.find?_cons_of_pos _ (by simp [h]),
            List.find?_cons_of_pos _ (by simp [h])]
        · rw [List.find?_cons_of_neg _ (by simp [h]),
            List.find?_cons_of_neg _ (by simp [h])]
          exact ih

end CctvHub
